import Mathlib

/-!
Verification development for the flae-bot time-tracking service.

The definitions below are a shallow embedding of the Python source in
`app/session.py` and `app/allocation.py` (plus the input-validation logic of
`app/discord_router.py`).  Conventions of the embedding:

* timestamps are integers (seconds); `datetime` subtraction followed by
  Python's `int(... .total_seconds())` becomes plain integer subtraction;
* Python strings are handled as `List Char`; `str.strip` / `str.lower` /
  `str.split` and the regular-expression scan of `parse_duration` are
  implemented character by character with the same semantics;
* human-entered decimal numbers (Python `float(...)` results) are modelled
  exactly as scaled decimals `mantissa / 10^scale`; Python's `int(x)`
  (truncation toward zero) becomes `Int.tdiv`.  IEEE-754 rounding of the
  intermediate products is not modelled: the arithmetic is exact.
* the SQLAlchemy store is a record of lists; a query followed by an in-place
  mutation of the fetched row becomes `replaceFirst`, which rewrites the
  first row satisfying the query predicate;
* a Python function returning `None` on failure becomes `Option`; a raised
  `ValueError` also becomes `none` at the raising function's boundary.
-/

namespace FlaeBot

/-! ### Python string primitives -/

/-- Characters treated as whitespace by Python's `str.strip` and `\s`
(ASCII fragment). -/
def pyIsSpace (c : Char) : Bool :=
  c = ' ' ∨ c = '\t' ∨ c = '\n' ∨ c = '\x0d' ∨ c = '\x0b' ∨ c = '\x0c'

/-- Python `str.strip()`: drop leading and trailing whitespace. -/
def pyStrip (l : List Char) : List Char :=
  ((l.dropWhile pyIsSpace).reverse.dropWhile pyIsSpace).reverse

/-- Value of a digit string (most significant first). -/
def digitsToNat (l : List Char) : Nat :=
  l.foldl (fun n c => n * 10 + (c.toNat - 48)) 0

/-- Python `str.split(sep)` for a one-character separator, Python semantics
(`"".split(":") = [""]`, `":".split(":") = ["", ""]`). -/
def splitOnChar (sep : Char) (l : List Char) : List (List Char) :=
  l.foldr
    (fun c acc =>
      match acc with
      | [] => [[c]]
      | grp :: rest => if c = sep then [] :: grp :: rest else (c :: grp) :: rest)
    [[]]

/-- Python `int(str)`: optional surrounding whitespace, optional sign, then a
nonempty digit string (underscore grouping is not modelled). -/
def pyParseInt (l : List Char) : Option Int :=
  let t := pyStrip l
  match t with
  | '+' :: rest =>
      if rest ≠ [] ∧ rest.all Char.isDigit then some (digitsToNat rest) else none
  | '-' :: rest =>
      if rest ≠ [] ∧ rest.all Char.isDigit then some (-(digitsToNat rest : Int)) else none
  | rest =>
      if rest ≠ [] ∧ rest.all Char.isDigit then some (digitsToNat rest) else none

/-- An exactly-represented decimal number `mant / 10 ^ scale`. -/
structure Dec where
  mant : Int
  scale : Nat
deriving DecidableEq

/-- Python `int(d * k)` for a decimal `d` and integer unit factor `k`:
truncation toward zero of the exact product. -/
def Dec.truncMul (d : Dec) (k : Nat) : Int :=
  Int.tdiv (d.mant * k) ((10 : Int) ^ d.scale)

/-- Unsigned decimal literal: digits with at most one dot, at least one digit
(`"80"`, `"1.5"`, `"1."`, `".5"`). -/
def parseUnsignedDec (l : List Char) : Option Dec :=
  match splitOnChar '.' l with
  | [a] =>
      if a ≠ [] ∧ a.all Char.isDigit then some ⟨digitsToNat a, 0⟩ else none
  | [a, b] =>
      if (a ≠ [] ∨ b ≠ []) ∧ a.all Char.isDigit ∧ b.all Char.isDigit then
        some ⟨digitsToNat a * 10 ^ b.length + digitsToNat b, b.length⟩
      else none
  | _ => none

/-- Python `float(str)` restricted to plain decimal literals with an optional
sign (exponents, `inf` and `nan` are not modelled). -/
def pyParseFloat (l : List Char) : Option Dec :=
  let t := pyStrip l
  match t with
  | '+' :: rest => parseUnsignedDec rest
  | '-' :: rest => (parseUnsignedDec rest).map (fun d => ⟨-d.mant, d.scale⟩)
  | rest => parseUnsignedDec rest

/-! ### `parse_duration` (src/app/session.py lines 13-60) -/

/-- The `H:MM` branch: runs only when the string contains a colon, succeeds
only when the split has exactly two parts and both parse with `int`. -/
def tryHMM (l : List Char) : Option Int :=
  if l.contains ':' then
    match splitOnChar ':' l with
    | [p1, p2] =>
        match pyParseInt p1, pyParseInt p2 with
        | some h, some m => some (h * 3600 + m * 60)
        | _, _ => none
    | _ => none
  else none

/-- Decimal value of a matched `\d+\.?\d*` token with integer digits `d1`
and fractional digits `d2`. -/
def tokenDec (d1 d2 : List Char) : Dec :=
  ⟨(digitsToNat d1 * 10 ^ d2.length + digitsToNat d2 : Nat), d2.length⟩

/-- One attempted match of `(\d+\.?\d*)\s*([hms])` at the head of the list:
greedy digits, optional dot, greedy digits, whitespace, then a unit letter.
Returns the token value, the unit and the unconsumed rest. -/
def matchNumUnitAt (l : List Char) : Option (Dec × Char × List Char) :=
  let sp1 := l.span Char.isDigit
  if sp1.1 = [] then none
  else
    let after :=
      match sp1.2 with
      | '.' :: rest =>
          let sp2 := rest.span Char.isDigit
          (sp2.1, sp2.2)
      | other => ([], other)
    match after.2.dropWhile pyIsSpace with
    | u :: rest =>
        if u = 'h' ∨ u = 'm' ∨ u = 's' then some (tokenDec sp1.1 after.1, u, rest)
        else none
    | [] => none

/-- Left-to-right non-overlapping scan of `re.findall(r'(\d+\.?\d*)\s*([hms])', s)`.
(The regex never benefits from backtracking: a shortened number is always
followed by a digit or a dot, never by a unit letter, so greedy matching is
exact.)  The fuel argument is the initial length of the list; every step
consumes at least one character. -/
def scanNumUnitAux : Nat → List Char → List (Dec × Char)
  | 0, _ => []
  | _, [] => []
  | fuel + 1, c :: cs =>
      match matchNumUnitAt (c :: cs) with
      | some (num, u, rest) => (num, u) :: scanNumUnitAux fuel rest
      | none => scanNumUnitAux fuel cs

def scanNumUnit (l : List Char) : List (Dec × Char) :=
  scanNumUnitAux l.length l

/-- Seconds contributed by one `<number><unit>` token: each contribution is
truncated toward zero after unit conversion. -/
def unitContribution (t : Dec × Char) : Int :=
  if t.2 = 'h' then t.1.truncMul 3600
  else if t.2 = 'm' then t.1.truncMul 60
  else t.1.truncMul 1

/-- The `<number><unit>` token branch: succeeds exactly when the scan finds at
least one token, returning the sum of the truncated contributions. -/
def tryUnits (l : List Char) : Option Int :=
  match scanNumUnit l with
  | [] => none
  | toks => some ((toks.map unitContribution).foldr (· + ·) 0)

/-- The fallback branch: the whole string as a fractional number of minutes. -/
def tryPlainMinutes (l : List Char) : Option Int :=
  (pyParseFloat l).map (fun d => d.truncMul 60)

/-- Function `parse_duration` (src/app/session.py): strip and lowercase, then try the
three grammars in order; `none` models the raised `ValueError`. -/
def parse_duration (s : String) : Option Int :=
  let d := (pyStrip s.data).map Char.toLower
  match tryHMM d with
  | some v => some v
  | none =>
      match tryUnits d with
      | some v => some v
      | none => tryPlainMinutes d

/-! ### `format_duration` (src/app/session.py lines 63-80) -/

/-- Decimal digit characters of a natural number, via repeated division. -/
def natDigitsAux : Nat → Nat → List Char
  | 0, _ => []
  | fuel + 1, n =>
      if n < 10 then [Char.ofNat (n + 48)]
      else natDigitsAux fuel (n / 10) ++ [Char.ofNat (n % 10 + 48)]

def natToStr (n : Nat) : String :=
  String.mk (natDigitsAux (n + 1) n)

/-- Function `format_duration`: negative input renders as "0m"; hours/minutes shown
when positive, seconds only when there is no hour part; all-zero is "0m". -/
def format_duration (seconds : Int) : String :=
  if seconds < 0 then "0m"
  else
    let s := seconds.toNat
    let hours := s / 3600
    let minutes := s % 3600 / 60
    let secs := s % 60
    let parts : List String :=
      (if hours > 0 then [natToStr hours ++ "h"] else []) ++
      (if minutes > 0 then [natToStr minutes ++ "m"] else []) ++
      (if secs > 0 ∧ hours = 0 then [natToStr secs ++ "s"] else [])
    match parts with
    | [] => "0m"
    | ps => String.intercalate " " ps

example : parse_duration "1h 20m" = some 4800 := by decide
example : parse_duration "1:20" = some 4800 := by decide
example : parse_duration "80" = some 4800 := by decide
example : parse_duration "" = none := by decide
example : parse_duration "-80" = some (-4800) := by decide
example : parse_duration "-1:20" = some (-2400) := by decide
example : parse_duration "1.5h" = some 5400 := by decide
example : parse_duration "2h 30m 45s" = some 9045 := by decide
example : parse_duration "1.5:20" = none := by decide
example : format_duration 4800 = "1h 20m" := by decide
example : format_duration 0 = "0m" := by decide
example : format_duration (-5) = "0m" := by decide
example : format_duration 45 = "45s" := by decide
example : format_duration 3600 = "1h" := by decide

/-! ### Data model (src/app/models.py; ORM bookkeeping columns `created_at`
and the relationship fields are omitted, they carry no engine logic) -/

inductive Status where
  | RUNNING
  | PAUSED
  | ENDED_UNCONFIRMED
  | ENDED_CONFIRMED
deriving DecidableEq

def Status.isActive : Status → Bool
  | .RUNNING => true
  | .PAUSED => true
  | _ => false

def Status.isEnded : Status → Bool
  | .ENDED_UNCONFIRMED => true
  | .ENDED_CONFIRMED => true
  | _ => false

structure Session where
  id : Nat
  subject_id : Nat
  user_id : String
  started_at : Int
  ended_at : Option Int
  goal : Option String
  note : Option String
  status : Status
  total_paused_seconds : Int
  pause_started_at : Option Int
  effective_override_seconds : Option Int
deriving DecidableEq

structure Subject where
  id : Nat
  user_id : String
  name : String
deriving DecidableEq

structure WeeklyAllocation where
  id : Nat
  user_id : String
  subject_id : Nat
  week_start_date : Int
  minutes_allocated : Int
  updated_at : Int
deriving DecidableEq

/-- The persistent store: one list per table. -/
structure Store where
  users : List String
  subjects : List Subject
  sessions : List Session
  allocations : List WeeklyAllocation
deriving DecidableEq

def Store.init : Store := ⟨[], [], [], []⟩

/-- Replace the first element satisfying `p` by its image under `f`; the
model of fetching one row with a query and mutating it in place. -/
def replaceFirst (p : α → Bool) (f : α → α) : List α → List α
  | [] => []
  | x :: xs => if p x then f x :: xs else x :: replaceFirst p f xs

/-! ### `calculate_effective_time` (src/app/session.py lines 83-113) -/

def calculate_effective_time (s : Session) (now : Int) : Int :=
  match s.effective_override_seconds with
  | some v => v
  | none =>
      let endTime := match s.ended_at with
        | some e => e
        | none => now
      let base := endTime - s.started_at
      let paused := match s.status, s.pause_started_at with
        | .PAUSED, some p => s.total_paused_seconds + (now - p)
        | _, _ => s.total_paused_seconds
      max 0 (base - paused)

/-- The effective-time formula exactly as the spec states it (§4.2),
written independently of the source translation above. -/
def effective_time_of_spec (s : Session) (now : Int) : Int :=
  match s.effective_override_seconds with
  | some v => v
  | none =>
      let endT := s.ended_at.getD now
      let base := endT - s.started_at
      let extraPause :=
        if s.status = .PAUSED ∧ s.pause_started_at.isSome then
          now - s.pause_started_at.getD 0
        else 0
      max 0 (base - (s.total_paused_seconds + extraPause))

/-! ### Lifecycle operations (src/app/session.py lines 116-418) -/

def get_or_create_user (st : Store) (u : String) : Store :=
  if st.users.contains u then st else { st with users := st.users ++ [u] }

def freshSubjectId (st : Store) : Nat :=
  (st.subjects.map Subject.id).foldr max 0 + 1

def freshSessionId (st : Store) : Nat :=
  (st.sessions.map Session.id).foldr max 0 + 1

def freshAllocationId (st : Store) : Nat :=
  (st.allocations.map WeeklyAllocation.id).foldr max 0 + 1

def subjectFor (u name : String) (s : Subject) : Bool :=
  s.user_id == u && s.name == name

def get_or_create_subject (st : Store) (u name : String) : Subject × Store :=
  match st.subjects.find? (subjectFor u name) with
  | some s => (s, st)
  | none =>
      let s : Subject := ⟨freshSubjectId st, u, name⟩
      (s, { st with subjects := st.subjects ++ [s] })

/-- Row predicate of `get_active_session`'s query. -/
def activeFor (u : String) (s : Session) : Bool :=
  s.user_id == u && s.status.isActive

def get_active_session (st : Store) (u : String) : Option Session :=
  st.sessions.find? (activeFor u)

/-- The fresh session row created by `clock_in`. -/
def newSessionRecord (sid subjId : Nat) (u : String) (goal : Option String)
    (now : Int) : Session :=
  { id := sid, subject_id := subjId, user_id := u,
    started_at := now, ended_at := none, goal := goal, note := none,
    status := .RUNNING, total_paused_seconds := 0, pause_started_at := none,
    effective_override_seconds := none }

/-- Operation `clock_in`: returns `(session, is_new)` and the updated store. -/
def clock_in (st : Store) (u subj : String) (goal : Option String) (now : Int) :
    (Session × Bool) × Store :=
  let st1 := get_or_create_user st u
  match get_active_session st1 u with
  | some s => ((s, false), st1)
  | none =>
      let (subject, st2) := get_or_create_subject st1 u subj
      let sess := newSessionRecord (freshSessionId st2) subject.id u goal now
      ((sess, true), { st2 with sessions := st2.sessions ++ [sess] })

/-- The in-place mutation performed by `clock_out` on the fetched session. -/
def clockOutUpdate (note : Option String) (now : Int) (s : Session) : Session :=
  let s1 := match s.status, s.pause_started_at with
    | .PAUSED, some p =>
        { s with total_paused_seconds := s.total_paused_seconds + (now - p),
                 pause_started_at := none }
    | _, _ => s
  { s1 with ended_at := some now, status := .ENDED_UNCONFIRMED,
            note := match note with
              | some n => if n = "" then s1.note else some n
              | none => s1.note }

def clock_out (st : Store) (u : String) (note : Option String) (now : Int) :
    Option Session × Store :=
  match get_active_session st u with
  | none => (none, st)
  | some s =>
      (some (clockOutUpdate note now s),
       { st with sessions := replaceFirst (activeFor u) (clockOutUpdate note now) st.sessions })

def pauseUpdate (now : Int) (s : Session) : Session :=
  { s with status := .PAUSED, pause_started_at := some now }

def pause_session (st : Store) (u : String) (now : Int) : Option Session × Store :=
  match get_active_session st u with
  | none => (none, st)
  | some s =>
      if s.status = .RUNNING then
        (some (pauseUpdate now s),
         { st with sessions := replaceFirst (activeFor u) (pauseUpdate now) st.sessions })
      else (none, st)

def resumeUpdate (now : Int) (s : Session) : Session :=
  let s1 := match s.pause_started_at with
    | some p => { s with total_paused_seconds := s.total_paused_seconds + (now - p) }
    | none => s
  { s1 with status := .RUNNING, pause_started_at := none }

def resume_session (st : Store) (u : String) (now : Int) : Option Session × Store :=
  match get_active_session st u with
  | none => (none, st)
  | some s =>
      if s.status = .PAUSED then
        (some (resumeUpdate now s),
         { st with sessions := replaceFirst (activeFor u) (resumeUpdate now) st.sessions })
      else (none, st)

/-- Row predicate of the `id == session_id AND user_id == user_id` queries. -/
def byIdUser (sid : Nat) (u : String) (s : Session) : Bool :=
  s.id == sid && s.user_id == u

def adjust_effective_time (st : Store) (sid : Nat) (u : String) (dur : String) :
    Option Session × Store :=
  match st.sessions.find? (byIdUser sid u) with
  | none => (none, st)
  | some s =>
      match parse_duration dur with
      | some secs =>
          let upd := fun t => { t with effective_override_seconds := some secs }
          (some (upd s),
           { st with sessions := replaceFirst (byIdUser sid u) upd st.sessions })
      | none => (none, st)

def confirmUpdate (s : Session) : Session :=
  { s with status := .ENDED_CONFIRMED }

def confirm_session (st : Store) (sid : Nat) (u : String) : Option Session × Store :=
  match st.sessions.find? (byIdUser sid u) with
  | none => (none, st)
  | some s =>
      (some (confirmUpdate s),
       { st with sessions := replaceFirst (byIdUser sid u) confirmUpdate st.sessions })

def reopenUpdate (s : Session) : Session :=
  { s with status := .RUNNING, ended_at := none, effective_override_seconds := none }

def reopen_session (st : Store) (sid : Nat) (u : String) : Option Session × Store :=
  match st.sessions.find? (byIdUser sid u) with
  | none => (none, st)
  | some s =>
      match get_active_session st u with
      | some _ => (none, st)
      | none =>
          (some (reopenUpdate s),
           { st with sessions := replaceFirst (byIdUser sid u) reopenUpdate st.sessions })

def update_session_goal (st : Store) (sid : Nat) (u : String) (goal : String) :
    Option Session × Store :=
  match st.sessions.find? (byIdUser sid u) with
  | none => (none, st)
  | some s =>
      let upd := fun t => { t with goal := some goal }
      (some (upd s),
       { st with sessions := replaceFirst (byIdUser sid u) upd st.sessions })

/-! ### Allocation operations (src/app/allocation.py) -/

/-- Python `datetime.date()` of a timestamp: the calendar day, modelled as the floor
day number. -/
def dateOf (t : Int) : Int := Int.fdiv t 86400

/-- Row predicate of the allocation upsert query. -/
def allocFor (u : String) (subjId : Nat) (wdate : Int) (a : WeeklyAllocation) : Bool :=
  a.user_id == u && a.subject_id == subjId && a.week_start_date == wdate

/-- Operation `set_weekly_allocation` (src/app/allocation.py lines 33-82); the optional
`week_start` argument is passed explicitly. -/
def set_weekly_allocation (st : Store) (u subj : String) (hours : Dec)
    (week_start now : Int) : WeeklyAllocation × Store :=
  let st1 := get_or_create_user st u
  let (subject, st2) := get_or_create_subject st1 u subj
  let minutes := hours.truncMul 60
  let wdate := dateOf week_start
  match st2.allocations.find? (allocFor u subject.id wdate) with
  | some a =>
      let upd := fun t => { t with minutes_allocated := minutes, updated_at := now }
      (upd a, { st2 with allocations := replaceFirst (allocFor u subject.id wdate) upd st2.allocations })
  | none =>
      let a : WeeklyAllocation := ⟨freshAllocationId st2, u, subject.id, wdate, minutes, now⟩
      (a, { st2 with allocations := st2.allocations ++ [a] })

/-- Row predicate of the confirmed-sessions query of `get_weekly_allocations`:
owner, subject, status `ENDED_CONFIRMED`, and `started_at` in
`[week_start, week_start + 7 days)`. -/
def sessionInWeek (u : String) (subjId : Nat) (weekStart : Int) (s : Session) : Bool :=
  s.user_id == u && s.subject_id == subjId &&
    decide (s.status = .ENDED_CONFIRMED) &&
    decide (weekStart ≤ s.started_at) && decide (s.started_at < weekStart + 604800)

/-- Seconds one fetched session adds to the weekly total (the inline loop of
`get_weekly_allocations`): the override when set, else the clamped
end-minus-start minus accrued pauses, else nothing when `ended_at` is null. -/
def contribSeconds (s : Session) : Int :=
  match s.effective_override_seconds with
  | some v => v
  | none =>
      match s.ended_at with
      | some e => max 0 ((e - s.started_at) - s.total_paused_seconds)
      | none => 0

/-- Descending order on allocated minutes (`ORDER BY minutes_allocated DESC`). -/
def minutesGE (a b : WeeklyAllocation) : Prop :=
  b.minutes_allocated ≤ a.minutes_allocated

instance : DecidableRel minutesGE := fun _ _ => Int.decLe _ _

/-- Operation `get_weekly_allocations` (src/app/allocation.py lines 85-143): the week's
allocations ordered by allocated minutes descending, each paired with
`total_seconds // 60`. -/
def get_weekly_allocations (st : Store) (u : String) (week_start : Int) :
    List (WeeklyAllocation × Int) :=
  let wdate := dateOf week_start
  let allocs := st.allocations.filter (fun a => a.user_id == u && a.week_start_date == wdate)
  let sorted := List.insertionSort minutesGE allocs
  sorted.map (fun a =>
    let sessions := st.sessions.filter (sessionInWeek u a.subject_id week_start)
    let total := (sessions.map contribSeconds).foldr (· + ·) 0
    (a, Int.fdiv total 60))

/-! ### Router-side input validation (src/app/discord_router.py) -/

/-- Handler `handle_alloc_set`: the `/alloc set` handler rejects negative hours before
calling `set_weekly_allocation`; on success it calls through.  (`subject` and
`hours` presence checks are outside this model: the arguments are given.) -/
def handle_alloc_set (st : Store) (u subj : String) (hours : Dec)
    (week_start now : Int) : Option WeeklyAllocation × Store :=
  if hours.mant < 0 then (none, st)
  else
    let (a, st') := set_weekly_allocation st u subj hours week_start now
    (some a, st')

/-! ### Generic lemmas about `replaceFirst` and `find?` -/

theorem replaceFirst_of_find?_none {p : α → Bool} (f : α → α) {l : List α}
    (h : l.find? p = none) : replaceFirst p f l = l := by
  induction l with
  | nil => rfl
  | cons x xs ih =>
      rw [List.find?_cons] at h
      cases hx : p x with
      | true => simp [hx] at h
      | false =>
          simp only [hx] at h
          simp [replaceFirst, hx, ih h]

theorem find?_decomp {p : α → Bool} {l : List α} {x : α} (h : l.find? p = some x) :
    ∃ pre suf, l = pre ++ x :: suf ∧ (∀ y ∈ pre, p y = false) ∧ p x = true := by
  induction l with
  | nil => simp at h
  | cons a as ih =>
      rw [List.find?_cons] at h
      cases ha : p a with
      | true =>
          simp only [ha] at h
          injection h with h
          subst h
          exact ⟨[], as, rfl, by intro y hy; simp at hy, ha⟩
      | false =>
          simp only [ha] at h
          obtain ⟨pre, suf, hl, hpre, hx⟩ := ih h
          refine ⟨a :: pre, suf, by rw [hl]; rfl, ?_, hx⟩
          intro y hy
          rcases List.mem_cons.mp hy with rfl | hy
          · exact ha
          · exact hpre y hy

theorem replaceFirst_append_cons {p : α → Bool} (f : α → α) {pre : List α} {x : α}
    (suf : List α) (hpre : ∀ y ∈ pre, p y = false) (hx : p x = true) :
    replaceFirst p f (pre ++ x :: suf) = pre ++ f x :: suf := by
  induction pre with
  | nil => simp [replaceFirst, hx]
  | cons a as ih =>
      have ha : p a = false := hpre a (List.mem_cons_self a as)
      have ih' := ih (fun y hy => hpre y (List.mem_cons_of_mem a hy))
      show replaceFirst p f (a :: (as ++ x :: suf)) = a :: (as ++ f x :: suf)
      simp [replaceFirst, ha, ih']

theorem mem_replaceFirst {p : α → Bool} {f : α → α} {l : List α} {t : α}
    (h : t ∈ replaceFirst p f l) : t ∈ l ∨ ∃ x, x ∈ l ∧ p x = true ∧ t = f x := by
  induction l with
  | nil => simp [replaceFirst] at h
  | cons a as ih =>
      by_cases ha : p a
      · simp only [replaceFirst, ha, if_pos] at h
        rcases List.mem_cons.mp h with rfl | h
        · exact Or.inr ⟨a, List.mem_cons_self a as, ha, rfl⟩
        · exact Or.inl (List.mem_cons_of_mem a h)
      · simp only [replaceFirst, ha, if_false] at h
        rcases List.mem_cons.mp h with rfl | h
        · exact Or.inl (List.mem_cons_self t as)
        · rcases ih h with h' | ⟨x, hx, hpx, ht⟩
          · exact Or.inl (List.mem_cons_of_mem a h')
          · exact Or.inr ⟨x, List.mem_cons_of_mem a hx, hpx, ht⟩

theorem countP_replaceFirst_le {p q : α → Bool} {f : α → α} {l : List α}
    (hq : ∀ x, p x = true → q (f x) = false) :
    (replaceFirst p f l).countP q ≤ l.countP q := by
  induction l with
  | nil => simp [replaceFirst]
  | cons a as ih =>
      cases ha : p a with
      | true =>
          simp only [replaceFirst, ha, if_pos, List.countP_cons, hq a ha,
            Bool.false_eq_true, if_false]
          omega
      | false =>
          simp only [replaceFirst, ha, Bool.false_eq_true, if_false, List.countP_cons]
          omega

theorem countP_replaceFirst_eq {p q : α → Bool} {f : α → α} {l : List α}
    (hq : ∀ x, p x = true → q (f x) = q x) :
    (replaceFirst p f l).countP q = l.countP q := by
  induction l with
  | nil => rfl
  | cons a as ih =>
      cases ha : p a with
      | true =>
          simp only [replaceFirst, ha, if_pos, List.countP_cons, hq a ha]
      | false =>
          simp only [replaceFirst, ha, Bool.false_eq_true, if_false, List.countP_cons, ih]

/-! ### The spec's per-session state invariants (§3) -/

/-- Invariant: `pause_started_at` is set if and only if status = PAUSED. -/
def pauseInvariant (s : Session) : Prop :=
  s.pause_started_at.isSome ↔ s.status = .PAUSED

/-- Invariant: `ended_at` is set if and only if status ∈ \x7bENDED_UNCONFIRMED, ENDED_CONFIRMED\x7d. -/
def endedInvariant (s : Session) : Prop :=
  s.ended_at.isSome ↔ s.status.isEnded = true

def SessionInv (s : Session) : Prop := pauseInvariant s ∧ endedInvariant s

instance (s : Session) : Decidable (pauseInvariant s) := by
  unfold pauseInvariant; infer_instance

instance (s : Session) : Decidable (endedInvariant s) := by
  unfold endedInvariant; infer_instance

instance (s : Session) : Decidable (SessionInv s) := by
  unfold SessionInv; infer_instance

/-! ### Small facts about statuses and row predicates -/

theorem Status.isActive_iff {st : Status} :
    st.isActive = true ↔ st = .RUNNING ∨ st = .PAUSED := by
  cases st <;> simp [Status.isActive]

theorem Status.isEnded_eq_not_isActive (st : Status) : st.isEnded = !st.isActive := by
  cases st <;> rfl

theorem activeFor_iff {u : String} {s : Session} :
    activeFor u s = true ↔ s.user_id = u ∧ s.status.isActive = true := by
  simp [activeFor]

theorem byIdUser_iff {sid : Nat} {u : String} {s : Session} :
    byIdUser sid u s = true ↔ s.id = sid ∧ s.user_id = u := by
  simp [byIdUser]

/-! ## C1 -/

/-- C1. `calculate_effective_time` is total in every status; it returns
the override when set, else `max 0 (base - paused)` exactly as the §4.2
formula states; and it is independent of `now` once `ended_at` is fixed and
no override changes, for any session respecting the pause invariant. -/
theorem C1_effective_time :
    (∀ (s : Session) (now : Int),
        calculate_effective_time s now = effective_time_of_spec s now) ∧
    (∀ (s : Session) (v now : Int),
        s.effective_override_seconds = some v →
        calculate_effective_time s now = v) ∧
    (∀ (s : Session) (e n1 n2 : Int),
        endedInvariant s → s.ended_at = some e →
        calculate_effective_time s n1 = calculate_effective_time s n2) := by
  refine ⟨?_, ?_, ?_⟩
  · intro s now
    unfold calculate_effective_time effective_time_of_spec
    cases ho : s.effective_override_seconds with
    | some v => rfl
    | none =>
        cases he : s.ended_at <;>
          cases hst : s.status <;>
            cases hp : s.pause_started_at <;>
              simp [he, hst, hp]
  · intro s v now h
    unfold calculate_effective_time
    rw [h]
  · intro s e n1 n2 hinv he
    unfold calculate_effective_time
    cases ho : s.effective_override_seconds with
    | some v => rfl
    | none =>
        cases hst : s.status <;> cases hp : s.pause_started_at <;> simp [he, hst, hp]
        -- remaining case: PAUSED with ended_at set, excluded by the invariant
        all_goals
          exfalso
          have hend : s.status.isEnded = true := hinv.mp (by rw [he]; rfl)
          rw [hst] at hend
          simp [Status.isEnded] at hend

/-- Concrete instantiation of C1's frozen-value clause: an ended, confirmed
session evaluates identically at two different instants. -/
def C1session : Session :=
  { id := 1, subject_id := 1, user_id := "alice", started_at := 0,
    ended_at := some 100, goal := none, note := none,
    status := .ENDED_UNCONFIRMED, total_paused_seconds := 10,
    pause_started_at := none, effective_override_seconds := none }

theorem C1_effective_time_witness :
    calculate_effective_time C1session 500 = calculate_effective_time C1session 900 :=
  C1_effective_time.2.2 C1session 100 500 900 (by decide) (by decide)

/-! ## C2: invariant preservation by the lifecycle operations -/

theorem get_or_create_user_sessions (st : Store) (u : String) :
    (get_or_create_user st u).sessions = st.sessions := by
  unfold get_or_create_user; split <;> rfl

theorem get_or_create_subject_sessions (st : Store) (u n : String) :
    (get_or_create_subject st u n).2.sessions = st.sessions := by
  unfold get_or_create_subject
  cases st.subjects.find? (subjectFor u n) <;> rfl

theorem sessionInv_clockOutUpdate {y : Session} (note : Option String) (now : Int)
    (hinv : SessionInv y) : SessionInv (clockOutUpdate note now y) := by
  obtain ⟨hp, _⟩ := hinv
  unfold clockOutUpdate
  cases hys : y.status <;> cases hyp : y.pause_started_at <;>
    simp_all [SessionInv, pauseInvariant, endedInvariant, Status.isEnded]

theorem sessionInv_pauseUpdate {y : Session} (now : Int)
    (hinv : SessionInv y) (hact : y.status.isActive = true) :
    SessionInv (pauseUpdate now y) := by
  obtain ⟨_, he⟩ := hinv
  simp only [endedInvariant] at he
  have hend : y.ended_at.isSome = false := by
    cases hob : y.ended_at.isSome
    · rfl
    · have h1 := he.mp hob
      rw [Status.isEnded_eq_not_isActive, hact] at h1
      exact absurd h1 (by decide)
  constructor
  · simp [pauseUpdate, pauseInvariant]
  · simp [endedInvariant, pauseUpdate, hend, Status.isEnded]

theorem sessionInv_resumeUpdate {y : Session} (now : Int)
    (hinv : SessionInv y) (hact : y.status.isActive = true) :
    SessionInv (resumeUpdate now y) := by
  obtain ⟨_, he⟩ := hinv
  simp only [endedInvariant] at he
  have hend : y.ended_at.isSome = false := by
    cases hob : y.ended_at.isSome
    · rfl
    · have h1 := he.mp hob
      rw [Status.isEnded_eq_not_isActive, hact] at h1
      exact absurd h1 (by decide)
  unfold resumeUpdate
  cases hyp : y.pause_started_at <;>
    simp_all [SessionInv, pauseInvariant, endedInvariant, Status.isEnded]

theorem sessionInv_confirmUpdate {y : Session}
    (hinv : SessionInv y) (hend : y.status.isEnded = true) :
    SessionInv (confirmUpdate y) := by
  obtain ⟨hp, he⟩ := hinv
  simp only [pauseInvariant] at hp
  simp only [endedInvariant] at he
  have hnp : y.status ≠ .PAUSED := by
    intro hc; rw [hc] at hend; simp [Status.isEnded] at hend
  have hsome : y.ended_at.isSome = true := he.mpr hend
  constructor
  · simp only [pauseInvariant, confirmUpdate]
    constructor
    · intro hs; exact absurd (hp.mp hs) hnp
    · intro hc; simp at hc
  · simp [endedInvariant, confirmUpdate, hsome, Status.isEnded]

theorem sessionInv_reopenUpdate {y : Session}
    (hinv : SessionInv y) (hnact : y.status.isActive = false) :
    SessionInv (reopenUpdate y) := by
  obtain ⟨hp, _⟩ := hinv
  simp only [pauseInvariant] at hp
  have hnp : y.status ≠ .PAUSED := by
    intro hc; rw [hc] at hnact; simp [Status.isActive] at hnact
  have hps : y.pause_started_at.isSome = false := by
    cases hob : y.pause_started_at.isSome
    · rfl
    · exact absurd (hp.mp hob) hnp
  constructor
  · simp [pauseInvariant, reopenUpdate, hps]
  · simp [endedInvariant, reopenUpdate, Status.isEnded]

theorem sessionInv_newSessionRecord (sid subjId : Nat) (u : String)
    (goal : Option String) (now : Int) :
    SessionInv (newSessionRecord sid subjId u goal now) := by
  exact ⟨by simp [pauseInvariant, newSessionRecord],
         by simp [endedInvariant, newSessionRecord, Status.isEnded]⟩

theorem clock_in_preserves_inv {st : Store} {u subj : String} {goal : Option String}
    {now : Int} (h : ∀ s ∈ st.sessions, SessionInv s) :
    ∀ s' ∈ (clock_in st u subj goal now).2.sessions, SessionInv s' := by
  unfold clock_in
  dsimp only
  cases hf : get_active_session (get_or_create_user st u) u with
  | some x =>
      intro s' hs'
      simp only [get_or_create_user_sessions] at hs'
      exact h s' hs'
  | none =>
      intro s' hs'
      simp only [get_or_create_subject_sessions, get_or_create_user_sessions] at hs'
      rcases List.mem_append.mp hs' with hold | hnew
      · exact h s' hold
      · have heq : s' = newSessionRecord
            (freshSessionId (get_or_create_subject (get_or_create_user st u) u subj).2)
            ((get_or_create_subject (get_or_create_user st u) u subj).1).id
            u goal now := by simpa using hnew
        rw [heq]
        exact sessionInv_newSessionRecord _ _ _ _ _

theorem clock_out_preserves_inv {st : Store} {u : String} {note : Option String}
    {now : Int} (h : ∀ s ∈ st.sessions, SessionInv s) :
    ∀ s' ∈ (clock_out st u note now).2.sessions, SessionInv s' := by
  unfold clock_out
  cases hf : get_active_session st u with
  | none => exact h
  | some x =>
      intro s' hs'
      rcases mem_replaceFirst hs' with hmem | ⟨y, hy, _, rfl⟩
      · exact h s' hmem
      · exact sessionInv_clockOutUpdate note now (h y hy)

theorem pause_preserves_inv {st : Store} {u : String} {now : Int}
    (h : ∀ s ∈ st.sessions, SessionInv s) :
    ∀ s' ∈ (pause_session st u now).2.sessions, SessionInv s' := by
  unfold pause_session
  cases hf : get_active_session st u with
  | none => exact h
  | some x =>
      by_cases hr : x.status = .RUNNING
      · simp only [hr, if_pos]
        intro s' hs'
        rcases mem_replaceFirst hs' with hmem | ⟨y, hy, hpy, rfl⟩
        · exact h s' hmem
        · exact sessionInv_pauseUpdate now (h y hy) (activeFor_iff.mp hpy).2
      · simp only [hr, if_neg, if_false]
        exact h

theorem resume_preserves_inv {st : Store} {u : String} {now : Int}
    (h : ∀ s ∈ st.sessions, SessionInv s) :
    ∀ s' ∈ (resume_session st u now).2.sessions, SessionInv s' := by
  unfold resume_session
  cases hf : get_active_session st u with
  | none => exact h
  | some x =>
      by_cases hr : x.status = .PAUSED
      · simp only [hr, if_pos]
        intro s' hs'
        rcases mem_replaceFirst hs' with hmem | ⟨y, hy, hpy, rfl⟩
        · exact h s' hmem
        · exact sessionInv_resumeUpdate now (h y hy) (activeFor_iff.mp hpy).2
      · simp only [hr, if_neg, if_false]
        exact h

theorem adjust_preserves_inv {st : Store} {sid : Nat} {u : String} {dur : String}
    (h : ∀ s ∈ st.sessions, SessionInv s) :
    ∀ s' ∈ (adjust_effective_time st sid u dur).2.sessions, SessionInv s' := by
  unfold adjust_effective_time
  cases hf : st.sessions.find? (byIdUser sid u) with
  | none => exact h
  | some x =>
      cases hp : parse_duration dur with
      | none => exact h
      | some secs =>
          intro s' hs'
          rcases mem_replaceFirst hs' with hmem | ⟨y, hy, _, rfl⟩
          · exact h s' hmem
          · obtain ⟨hpi, hei⟩ := h y hy
            exact ⟨hpi, hei⟩

theorem confirm_preserves_inv_of_ended {st : Store} {sid : Nat} {u : String}
    (h : ∀ s ∈ st.sessions, SessionInv s)
    (hended : ∀ s ∈ st.sessions, byIdUser sid u s = true → s.status.isEnded = true) :
    ∀ s' ∈ (confirm_session st sid u).2.sessions, SessionInv s' := by
  unfold confirm_session
  cases hf : st.sessions.find? (byIdUser sid u) with
  | none => exact h
  | some x =>
      intro s' hs'
      rcases mem_replaceFirst hs' with hmem | ⟨y, hy, hpy, rfl⟩
      · exact h s' hmem
      · exact sessionInv_confirmUpdate (h y hy) (hended y hy hpy)

theorem reopen_preserves_inv {st : Store} {sid : Nat} {u : String}
    (h : ∀ s ∈ st.sessions, SessionInv s) :
    ∀ s' ∈ (reopen_session st sid u).2.sessions, SessionInv s' := by
  unfold reopen_session
  cases hf : st.sessions.find? (byIdUser sid u) with
  | none => exact h
  | some x =>
      cases ha : get_active_session st u with
      | some _ => exact h
      | none =>
          intro s' hs'
          rcases mem_replaceFirst hs' with hmem | ⟨y, hy, hpy, rfl⟩
          · exact h s' hmem
          · have hnact : activeFor u y = false := by
              have := List.find?_eq_none.mp ha y hy
              cases hb : activeFor u y
              · rfl
              · exact absurd hb this
            have hu : y.user_id = u := (byIdUser_iff.mp hpy).2
            have : y.status.isActive = false := by
              cases hb : y.status.isActive
              · rfl
              · exfalso
                have : activeFor u y = true := activeFor_iff.mpr ⟨hu, hb⟩
                rw [this] at hnact; cases hnact
            exact sessionInv_reopenUpdate (h y hy) this

theorem update_goal_preserves_inv {st : Store} {sid : Nat} {u goal : String}
    (h : ∀ s ∈ st.sessions, SessionInv s) :
    ∀ s' ∈ (update_session_goal st sid u goal).2.sessions, SessionInv s' := by
  unfold update_session_goal
  cases hf : st.sessions.find? (byIdUser sid u) with
  | none => exact h
  | some x =>
      intro s' hs'
      rcases mem_replaceFirst hs' with hmem | ⟨y, hy, _, rfl⟩
      · exact h s' hmem
      · obtain ⟨hpi, hei⟩ := h y hy
        exact ⟨hpi, hei⟩

/-- C2, amended. Clock-in, clock-out, pause, resume, adjust, reopen and
goal update preserve both per-session state invariants; confirm preserves
them only when the session it targets is already ended — it does not set
`ended_at` or clear `pause_started_at`, so confirming an active session
violates them (see the counterexample). -/
theorem C2_invariant_preservation :
    (∀ (st : Store) (u subj : String) (goal : Option String) (now : Int),
        (∀ s ∈ st.sessions, SessionInv s) →
        ∀ s' ∈ (clock_in st u subj goal now).2.sessions, SessionInv s') ∧
    (∀ (st : Store) (u : String) (note : Option String) (now : Int),
        (∀ s ∈ st.sessions, SessionInv s) →
        ∀ s' ∈ (clock_out st u note now).2.sessions, SessionInv s') ∧
    (∀ (st : Store) (u : String) (now : Int),
        (∀ s ∈ st.sessions, SessionInv s) →
        ∀ s' ∈ (pause_session st u now).2.sessions, SessionInv s') ∧
    (∀ (st : Store) (u : String) (now : Int),
        (∀ s ∈ st.sessions, SessionInv s) →
        ∀ s' ∈ (resume_session st u now).2.sessions, SessionInv s') ∧
    (∀ (st : Store) (sid : Nat) (u dur : String),
        (∀ s ∈ st.sessions, SessionInv s) →
        ∀ s' ∈ (adjust_effective_time st sid u dur).2.sessions, SessionInv s') ∧
    (∀ (st : Store) (sid : Nat) (u : String),
        (∀ s ∈ st.sessions, SessionInv s) →
        (∀ s ∈ st.sessions, byIdUser sid u s = true → s.status.isEnded = true) →
        ∀ s' ∈ (confirm_session st sid u).2.sessions, SessionInv s') ∧
    (∀ (st : Store) (sid : Nat) (u : String),
        (∀ s ∈ st.sessions, SessionInv s) →
        ∀ s' ∈ (reopen_session st sid u).2.sessions, SessionInv s') ∧
    (∀ (st : Store) (sid : Nat) (u goal : String),
        (∀ s ∈ st.sessions, SessionInv s) →
        ∀ s' ∈ (update_session_goal st sid u goal).2.sessions, SessionInv s') := by
  refine ⟨?_, ?_, ?_, ?_, ?_, ?_, ?_, ?_⟩
  · intro st u subj goal now h
    exact clock_in_preserves_inv h
  · intro st u note now h
    exact clock_out_preserves_inv h
  · intro st u now h
    exact pause_preserves_inv h
  · intro st u now h
    exact resume_preserves_inv h
  · intro st sid u dur h
    exact adjust_preserves_inv h
  · intro st sid u h hended
    exact confirm_preserves_inv_of_ended h hended
  · intro st sid u h
    exact reopen_preserves_inv h
  · intro st sid u goal h
    exact update_goal_preserves_inv h

/-- A store holding one RUNNING session; both invariants hold in it. -/
def C2session : Session :=
  { id := 1, subject_id := 1, user_id := "alice", started_at := 0,
    ended_at := none, goal := none, note := none, status := .RUNNING,
    total_paused_seconds := 0, pause_started_at := none,
    effective_override_seconds := none }

def C2store : Store := ⟨["alice"], [⟨1, "alice", "Math"⟩], [C2session], []⟩

/-- C2, counterexample to the claim as stated. Confirming the RUNNING
session leaves `ended_at` unset while moving the status to ENDED_CONFIRMED,
so the confirm operation does not preserve the invariants. -/
theorem C2_counterexample :
    (∀ s ∈ C2store.sessions, SessionInv s) ∧
    ¬ (∀ s' ∈ (confirm_session C2store 1 "alice").2.sessions, SessionInv s') := by
  decide

theorem C2_invariant_preservation_witness :
    ∀ s' ∈ (clock_in C2store "bob" "Math" none 5).2.sessions, SessionInv s' :=
  C2_invariant_preservation.1 C2store "bob" "Math" none 5 (by decide)

/-! ## C3: at most one active session per user in every reachable state -/

/-- Number of active (RUNNING or PAUSED) sessions a user has in the store. -/
def activeCount (st : Store) (u : String) : Nat :=
  st.sessions.countP (activeFor u)

/-- Stores reachable from the empty store through the engine's operations. -/
inductive Reachable : Store → Prop
  | init : Reachable Store.init
  | clockIn {st} (u subj : String) (goal : Option String) (now : Int) :
      Reachable st → Reachable (clock_in st u subj goal now).2
  | clockOut {st} (u : String) (note : Option String) (now : Int) :
      Reachable st → Reachable (clock_out st u note now).2
  | pause {st} (u : String) (now : Int) :
      Reachable st → Reachable (pause_session st u now).2
  | resume {st} (u : String) (now : Int) :
      Reachable st → Reachable (resume_session st u now).2
  | adjust {st} (sid : Nat) (u dur : String) :
      Reachable st → Reachable (adjust_effective_time st sid u dur).2
  | confirm {st} (sid : Nat) (u : String) :
      Reachable st → Reachable (confirm_session st sid u).2
  | reopen {st} (sid : Nat) (u : String) :
      Reachable st → Reachable (reopen_session st sid u).2
  | goalUpd {st} (sid : Nat) (u goal : String) :
      Reachable st → Reachable (update_session_goal st sid u goal).2
  | allocSet {st} (u subj : String) (hours : Dec) (week_start now : Int) :
      Reachable st → Reachable (set_weekly_allocation st u subj hours week_start now).2

theorem get_active_session_get_or_create_user (st : Store) (u v : String) :
    get_active_session (get_or_create_user st u) v = get_active_session st v := by
  unfold get_active_session
  rw [get_or_create_user_sessions]

theorem activeFor_clockOutUpdate (v : String) (note : Option String) (now : Int)
    (x : Session) : activeFor v (clockOutUpdate note now x) = false := by
  unfold clockOutUpdate activeFor
  cases hx : x.status <;> cases hp : x.pause_started_at <;>
    simp [Status.isActive]

theorem activeFor_pauseUpdate (v : String) (now : Int) (x : Session) :
    activeFor v (pauseUpdate now x) = (x.user_id == v) := by
  simp [pauseUpdate, activeFor, Status.isActive]

theorem activeFor_resumeUpdate (v : String) (now : Int) (x : Session) :
    activeFor v (resumeUpdate now x) = (x.user_id == v) := by
  unfold resumeUpdate activeFor
  cases hp : x.pause_started_at <;> simp [Status.isActive]

theorem activeFor_confirmUpdate (v : String) (x : Session) :
    activeFor v (confirmUpdate x) = false := by
  simp [confirmUpdate, activeFor, Status.isActive]

theorem activeFor_reopenUpdate (v : String) (x : Session) :
    activeFor v (reopenUpdate x) = (x.user_id == v) := by
  simp [reopenUpdate, activeFor, Status.isActive]

theorem activeCount_clock_in {st : Store} (u subj : String) (goal : Option String)
    (now : Int) (h : ∀ v, activeCount st v ≤ 1) :
    ∀ v, activeCount (clock_in st u subj goal now).2 v ≤ 1 := by
  intro v
  unfold clock_in
  dsimp only
  cases hf : get_active_session (get_or_create_user st u) u with
  | some x =>
      unfold activeCount
      rw [get_or_create_user_sessions]
      exact h v
  | none =>
      unfold activeCount
      dsimp only
      rw [List.countP_append, get_or_create_subject_sessions, get_or_create_user_sessions]
      rw [get_active_session_get_or_create_user] at hf
      by_cases hv : u = v
      · subst hv
        have h0 : st.sessions.countP (activeFor u) = 0 := by
          rw [List.countP_eq_zero]
          intro a ha
          exact List.find?_eq_none.mp hf a ha
        rw [h0]
        simp [newSessionRecord, activeFor, Status.isActive, List.countP_cons]
      · have hnew : activeFor v (newSessionRecord
            (freshSessionId (get_or_create_subject (get_or_create_user st u) u subj).2)
            ((get_or_create_subject (get_or_create_user st u) u subj).1).id u goal now) = false := by
          simp [newSessionRecord, activeFor]
          intro hc
          exact absurd hc hv
        rw [List.countP_cons, List.countP_nil, hnew]
        simpa using h v

theorem activeCount_clock_out {st : Store} (u : String) (note : Option String)
    (now : Int) (h : ∀ v, activeCount st v ≤ 1) :
    ∀ v, activeCount (clock_out st u note now).2 v ≤ 1 := by
  intro v
  unfold clock_out
  cases hf : get_active_session st u with
  | none => exact h v
  | some x =>
      unfold activeCount
      dsimp only
      calc (replaceFirst (activeFor u) (clockOutUpdate note now) st.sessions).countP (activeFor v)
          ≤ st.sessions.countP (activeFor v) :=
            countP_replaceFirst_le (fun y _ => activeFor_clockOutUpdate v note now y)
        _ ≤ 1 := h v

theorem activeCount_pause {st : Store} (u : String) (now : Int)
    (h : ∀ v, activeCount st v ≤ 1) :
    ∀ v, activeCount (pause_session st u now).2 v ≤ 1 := by
  intro v
  unfold pause_session
  cases hf : get_active_session st u with
  | none => exact h v
  | some x =>
      by_cases hr : x.status = .RUNNING
      · simp only [hr, if_pos]
        unfold activeCount
        dsimp only
        rw [countP_replaceFirst_eq]
        · exact h v
        · intro y hy
          rw [activeFor_pauseUpdate]
          rw [activeFor_iff] at hy
          simp [activeFor, hy.2]
      · simp only [hr, if_neg, if_false]
        exact h v

theorem activeCount_resume {st : Store} (u : String) (now : Int)
    (h : ∀ v, activeCount st v ≤ 1) :
    ∀ v, activeCount (resume_session st u now).2 v ≤ 1 := by
  intro v
  unfold resume_session
  cases hf : get_active_session st u with
  | none => exact h v
  | some x =>
      by_cases hr : x.status = .PAUSED
      · simp only [hr, if_pos]
        unfold activeCount
        dsimp only
        rw [countP_replaceFirst_eq]
        · exact h v
        · intro y hy
          rw [activeFor_resumeUpdate]
          rw [activeFor_iff] at hy
          simp [activeFor, hy.2]
      · simp only [hr, if_neg, if_false]
        exact h v

theorem activeCount_adjust {st : Store} (sid : Nat) (u dur : String)
    (h : ∀ v, activeCount st v ≤ 1) :
    ∀ v, activeCount (adjust_effective_time st sid u dur).2 v ≤ 1 := by
  intro v
  unfold adjust_effective_time
  cases hf : st.sessions.find? (byIdUser sid u) with
  | none => exact h v
  | some x =>
      cases hp : parse_duration dur with
      | none => exact h v
      | some secs =>
          unfold activeCount
          dsimp only
          rw [countP_replaceFirst_eq]
          · exact h v
          · intro y _
            simp [activeFor]

theorem activeCount_confirm {st : Store} (sid : Nat) (u : String)
    (h : ∀ v, activeCount st v ≤ 1) :
    ∀ v, activeCount (confirm_session st sid u).2 v ≤ 1 := by
  intro v
  unfold confirm_session
  cases hf : st.sessions.find? (byIdUser sid u) with
  | none => exact h v
  | some x =>
      unfold activeCount
      dsimp only
      calc (replaceFirst (byIdUser sid u) confirmUpdate st.sessions).countP (activeFor v)
          ≤ st.sessions.countP (activeFor v) :=
            countP_replaceFirst_le (fun y _ => activeFor_confirmUpdate v y)
        _ ≤ 1 := h v

theorem activeCount_reopen {st : Store} (sid : Nat) (u : String)
    (h : ∀ v, activeCount st v ≤ 1) :
    ∀ v, activeCount (reopen_session st sid u).2 v ≤ 1 := by
  intro v
  unfold reopen_session
  cases hf : st.sessions.find? (byIdUser sid u) with
  | none => exact h v
  | some x =>
      cases ha : get_active_session st u with
      | some _ => exact h v
      | none =>
          unfold activeCount
          dsimp only
          obtain ⟨pre, suf, hl, hpre, hx⟩ := find?_decomp hf
          rw [hl, replaceFirst_append_cons _ suf hpre hx,
            List.countP_append, List.countP_cons]
          have hu : x.user_id = u := (byIdUser_iff.mp hx).2
          by_cases hv : u = v
          · subst hv
            have h0 : st.sessions.countP (activeFor u) = 0 := by
              rw [List.countP_eq_zero]
              intro a ha'
              exact List.find?_eq_none.mp ha a ha'
            rw [hl, List.countP_append, List.countP_cons] at h0
            have hpre0 : pre.countP (activeFor u) = 0 := by omega
            have hsuf0 : suf.countP (activeFor u) = 0 := by omega
            rw [hpre0, hsuf0, activeFor_reopenUpdate, hu]
            simp
          · have : activeFor v (reopenUpdate x) = false := by
              rw [activeFor_reopenUpdate, hu]
              simp
              intro hc
              exact absurd hc hv
            rw [this]
            have hle := h v
            rw [activeCount, hl, List.countP_append, List.countP_cons] at hle
            simp only [Bool.false_eq_true, if_false]
            omega

theorem activeCount_update_goal {st : Store} (sid : Nat) (u goal : String)
    (h : ∀ v, activeCount st v ≤ 1) :
    ∀ v, activeCount (update_session_goal st sid u goal).2 v ≤ 1 := by
  intro v
  unfold update_session_goal
  cases hf : st.sessions.find? (byIdUser sid u) with
  | none => exact h v
  | some x =>
      unfold activeCount
      dsimp only
      rw [countP_replaceFirst_eq]
      · exact h v
      · intro y _
        simp [activeFor]

theorem set_weekly_allocation_sessions (st : Store) (u subj : String) (hours : Dec)
    (week_start now : Int) :
    (set_weekly_allocation st u subj hours week_start now).2.sessions = st.sessions := by
  unfold set_weekly_allocation
  dsimp only
  cases hf : ((get_or_create_subject (get_or_create_user st u) u subj).2).allocations.find?
      (allocFor u ((get_or_create_subject (get_or_create_user st u) u subj).1).id
        (dateOf week_start)) <;>
    simp [get_or_create_subject_sessions, get_or_create_user_sessions]

theorem activeCount_alloc_set {st : Store} (u subj : String) (hours : Dec)
    (week_start now : Int) (h : ∀ v, activeCount st v ≤ 1) :
    ∀ v, activeCount (set_weekly_allocation st u subj hours week_start now).2 v ≤ 1 := by
  intro v
  unfold activeCount
  rw [set_weekly_allocation_sessions]
  exact h v

/-- C3. Every reachable store has at most one active session per user;
clock-in with an active session returns it unchanged with the
"already active" flag (`is_new = false`) and leaves the session table
untouched; reopen is rejected whenever an active session exists and, when it
succeeds, no active session existed and the reopened session has `ended_at`
and the override cleared. -/
theorem C3_single_active :
    (∀ st, Reachable st → ∀ u, activeCount st u ≤ 1) ∧
    (∀ (st : Store) (u subj : String) (goal : Option String) (now : Int) (s : Session),
        get_active_session st u = some s →
        (clock_in st u subj goal now).1 = (s, false) ∧
        (clock_in st u subj goal now).2.sessions = st.sessions) ∧
    (∀ (st : Store) (sid : Nat) (u : String) (a : Session),
        get_active_session st u = some a →
        reopen_session st sid u = (none, st)) ∧
    (∀ (st : Store) (sid : Nat) (u : String) (s' : Session) (st' : Store),
        reopen_session st sid u = (some s', st') →
        get_active_session st u = none ∧ s'.ended_at = none ∧
        s'.effective_override_seconds = none ∧ s'.status = .RUNNING) := by
  refine ⟨?_, ?_, ?_, ?_⟩
  · intro st hreach
    induction hreach with
    | init => intro u; simp [activeCount, Store.init]
    | clockIn u subj goal now _ ih => exact activeCount_clock_in u subj goal now ih
    | clockOut u note now _ ih => exact activeCount_clock_out u note now ih
    | pause u now _ ih => exact activeCount_pause u now ih
    | resume u now _ ih => exact activeCount_resume u now ih
    | adjust sid u dur _ ih => exact activeCount_adjust sid u dur ih
    | confirm sid u _ ih => exact activeCount_confirm sid u ih
    | reopen sid u _ ih => exact activeCount_reopen sid u ih
    | goalUpd sid u goal _ ih => exact activeCount_update_goal sid u goal ih
    | allocSet u subj hours ws now _ ih => exact activeCount_alloc_set u subj hours ws now ih
  · intro st u subj goal now s hs
    unfold clock_in
    dsimp only
    rw [get_active_session_get_or_create_user, hs]
    exact ⟨rfl, get_or_create_user_sessions st u⟩
  · intro st sid u a ha
    unfold reopen_session
    cases hf : st.sessions.find? (byIdUser sid u) with
    | none => rfl
    | some x => rw [ha]
  · intro st sid u s' st' h
    unfold reopen_session at h
    cases hf : st.sessions.find? (byIdUser sid u) with
    | none =>
        rw [hf] at h
        simp at h
    | some x =>
        rw [hf] at h
        cases ha : get_active_session st u with
        | some a =>
            rw [ha] at h
            simp at h
        | none =>
            rw [ha] at h
            have hs' : s' = reopenUpdate x := by
              have := congrArg Prod.fst h
              simpa using this.symm
            rw [hs']
            exact ⟨rfl, rfl, rfl, rfl⟩

theorem C3_single_active_witness :
    activeCount (clock_in Store.init "alice" "Math" none 0).2 "alice" ≤ 1 :=
  C3_single_active.1 (clock_in Store.init "alice" "Math" none 0).2
    (Reachable.clockIn "alice" "Math" none 0 Reachable.init) "alice"

/-! ## C6: pause accrual on resume and clock-out -/

/-- C6. Resuming a session paused since `p` adds exactly `now - p` to
`total_paused_seconds` and clears `pause_started_at`; clock-out does the
same accrual and additionally sets `ended_at = now`, moves the status to
ENDED_UNCONFIRMED and attaches a nonempty note; clock-out with no active
session signals failure and leaves the store untouched; and the effective
time computed after the resume excludes the accrued pause. -/
theorem C6_pause_resume_accrual :
    (∀ (st : Store) (u : String) (now p : Int) (s : Session),
        get_active_session st u = some s → s.status = .PAUSED →
        s.pause_started_at = some p →
        ∃ s', (resume_session st u now).1 = some s' ∧
          s'.total_paused_seconds = s.total_paused_seconds + (now - p) ∧
          s'.pause_started_at = none ∧ s'.status = .RUNNING) ∧
    (∀ (st : Store) (u : String) (note : Option String) (now p : Int) (s : Session),
        get_active_session st u = some s → s.status = .PAUSED →
        s.pause_started_at = some p →
        ∃ s', (clock_out st u note now).1 = some s' ∧
          s'.total_paused_seconds = s.total_paused_seconds + (now - p) ∧
          s'.pause_started_at = none ∧ s'.ended_at = some now ∧
          s'.status = .ENDED_UNCONFIRMED ∧
          (∀ n, note = some n → n ≠ "" → s'.note = some n)) ∧
    (∀ (st : Store) (u : String) (note : Option String) (now : Int),
        get_active_session st u = none → clock_out st u note now = (none, st)) ∧
    (∀ (s : Session) (now p now2 : Int),
        s.pause_started_at = some p → s.effective_override_seconds = none →
        s.ended_at = none →
        calculate_effective_time (resumeUpdate now s) now2 =
          max 0 ((now2 - s.started_at) - (s.total_paused_seconds + (now - p)))) := by
  refine ⟨?_, ?_, ?_, ?_⟩
  · intro st u now p s hs hp hpp
    refine ⟨resumeUpdate now s, ?_, ?_, ?_, ?_⟩
    · unfold resume_session
      rw [hs]
      simp [hp]
    · simp [resumeUpdate, hpp]
    · simp [resumeUpdate]
    · simp [resumeUpdate]
  · intro st u note now p s hs hp hpp
    refine ⟨clockOutUpdate note now s, ?_, ?_, ?_, ?_, ?_, ?_⟩
    · unfold clock_out
      rw [hs]
    · simp [clockOutUpdate, hp, hpp]
    · simp [clockOutUpdate, hp, hpp]
    · simp [clockOutUpdate]
    · simp [clockOutUpdate]
    · intro n hn hne
      simp [clockOutUpdate, hn, hne]
  · intro st u note now h
    unfold clock_out
    rw [h]
  · intro s now p now2 hpp hov hen
    unfold calculate_effective_time resumeUpdate
    rw [hpp]
    simp [hov, hen]

/-- A store with one session of alice's, PAUSED since t = 40. -/
def C6session : Session :=
  { id := 1, subject_id := 1, user_id := "alice", started_at := 0,
    ended_at := none, goal := none, note := none, status := .PAUSED,
    total_paused_seconds := 7, pause_started_at := some 40,
    effective_override_seconds := none }

def C6store : Store := ⟨["alice"], [⟨1, "alice", "Math"⟩], [C6session], []⟩

theorem C6_pause_resume_accrual_witness :
    ∃ s', (resume_session C6store "alice" 340).1 = some s' ∧
      s'.total_paused_seconds = C6session.total_paused_seconds + (340 - 40) ∧
      s'.pause_started_at = none ∧ s'.status = .RUNNING :=
  C6_pause_resume_accrual.1 C6store "alice" 340 40 C6session
    (by decide) (by decide) (by decide)

/-! ## C10: frame of a successful reopen -/

/-- C10. A successful reopen changes only `status`, `ended_at` and
`effective_override_seconds` of the single targeted row (all other fields
and all other rows, as well as the other tables, are unchanged), and the
effective time of the reopened session then counts the wall-clock gap
between the cleared `ended_at` and the evaluation instant as focus time. -/
theorem C10_reopen_frame :
    (∀ (st : Store) (sid : Nat) (u : String) (s' : Session) (st' : Store),
        reopen_session st sid u = (some s', st') →
        ∃ x pre suf, st.sessions = pre ++ x :: suf ∧
          st'.sessions = pre ++ s' :: suf ∧
          s'.started_at = x.started_at ∧
          s'.total_paused_seconds = x.total_paused_seconds ∧
          s'.goal = x.goal ∧ s'.note = x.note ∧
          s'.subject_id = x.subject_id ∧ s'.user_id = x.user_id ∧
          s'.id = x.id ∧ s'.pause_started_at = x.pause_started_at ∧
          s'.status = .RUNNING ∧ s'.ended_at = none ∧
          s'.effective_override_seconds = none ∧
          st'.users = st.users ∧ st'.subjects = st.subjects ∧
          st'.allocations = st.allocations) ∧
    (∀ (x : Session) (e now2 : Int),
        x.ended_at = some e → x.effective_override_seconds = none →
        x.pause_started_at = none →
        0 ≤ (e - x.started_at) - x.total_paused_seconds → e ≤ now2 →
        calculate_effective_time (reopenUpdate x) now2 =
          calculate_effective_time x e + (now2 - e)) := by
  constructor
  · intro st sid u s' st' h
    unfold reopen_session at h
    cases hf : st.sessions.find? (byIdUser sid u) with
    | none =>
        rw [hf] at h
        simp at h
    | some x =>
        rw [hf] at h
        cases ha : get_active_session st u with
        | some a =>
            rw [ha] at h
            simp at h
        | none =>
            rw [ha] at h
            have hs' : s' = reopenUpdate x := by
              have := congrArg Prod.fst h
              simpa using this.symm
            have hst' : st' = { st with
                sessions := replaceFirst (byIdUser sid u) reopenUpdate st.sessions } := by
              have := congrArg Prod.snd h
              simpa using this.symm
            obtain ⟨pre, suf, hl, hpre, hx⟩ := find?_decomp hf
            refine ⟨x, pre, suf, hl, ?_, ?_⟩
            · rw [hst', hs']
              show replaceFirst (byIdUser sid u) reopenUpdate st.sessions = _
              rw [hl, replaceFirst_append_cons _ suf hpre hx]
            · rw [hs']
              refine ⟨rfl, rfl, rfl, rfl, rfl, rfl, rfl, rfl, rfl, rfl, rfl, ?_, ?_, ?_⟩ <;>
                rw [hst']
  · intro x e now2 hen hov hpp hpos hle
    unfold calculate_effective_time reopenUpdate
    cases hst : x.status <;>
      simp [hen, hov, hpp] <;> omega

def C10session : Session :=
  { id := 1, subject_id := 1, user_id := "alice", started_at := 0,
    ended_at := some 100, goal := none, note := none,
    status := .ENDED_UNCONFIRMED, total_paused_seconds := 30,
    pause_started_at := none, effective_override_seconds := none }

theorem C10_reopen_frame_witness :
    calculate_effective_time (reopenUpdate C10session) 250 =
      calculate_effective_time C10session 100 + (250 - 100) :=
  C10_reopen_frame.2 C10session 100 250 (by decide) (by decide) (by decide)
    (by decide) (by decide)

/-! ## C8: adjust-effective-time contract -/

/-- C8, amended. `adjust_effective_time` sets the override to the parsed
duration exactly when the session exists, is owned by the user and the text
parses; on a missing/unowned session and on a parse failure alike it returns
the same `none` signal with the store untouched (the two failure causes are
not distinguishable in the result). -/
theorem C8_adjust_contract :
    (∀ (st : Store) (sid : Nat) (u dur : String) (s : Session) (secs : Int),
        st.sessions.find? (byIdUser sid u) = some s →
        parse_duration dur = some secs →
        ∃ s', (adjust_effective_time st sid u dur).1 = some s' ∧
          s'.effective_override_seconds = some secs ∧
          (adjust_effective_time st sid u dur).2.sessions =
            replaceFirst (byIdUser sid u)
              (fun t => { t with effective_override_seconds := some secs })
              st.sessions) ∧
    (∀ (st : Store) (sid : Nat) (u dur : String),
        st.sessions.find? (byIdUser sid u) = none →
        adjust_effective_time st sid u dur = (none, st)) ∧
    (∀ (st : Store) (sid : Nat) (u dur : String) (s : Session),
        st.sessions.find? (byIdUser sid u) = some s →
        parse_duration dur = none →
        adjust_effective_time st sid u dur = (none, st)) := by
  refine ⟨?_, ?_, ?_⟩
  · intro st sid u dur s secs hf hp
    unfold adjust_effective_time
    rw [hf, hp]
    exact ⟨{ s with effective_override_seconds := some secs }, rfl, rfl, rfl⟩
  · intro st sid u dur hf
    unfold adjust_effective_time
    rw [hf]
  · intro st sid u dur s hf hp
    unfold adjust_effective_time
    rw [hf, hp]

def C8session : Session :=
  { id := 1, subject_id := 1, user_id := "alice", started_at := 0,
    ended_at := some 100, goal := none, note := none,
    status := .ENDED_UNCONFIRMED, total_paused_seconds := 0,
    pause_started_at := none, effective_override_seconds := none }

def C8store : Store := ⟨["alice"], [⟨1, "alice", "Math"⟩], [C8session], []⟩

/-- C8, counterexample to the claim as stated. A parse failure on an
existing owned session and a not-found failure produce identical results
(`none` and the untouched store): the parse failure is not propagated as an
outcome distinguishable from "not found/not owned". -/
theorem C8_counterexample :
    adjust_effective_time C8store 1 "alice" "gibberish" = (none, C8store) ∧
    adjust_effective_time C8store 99 "alice" "1h 20m" = (none, C8store) := by
  decide

theorem C8_adjust_contract_witness :
    ∃ s', (adjust_effective_time C8store 1 "alice" "1h 20m").1 = some s' ∧
      s'.effective_override_seconds = some 4800 ∧
      (adjust_effective_time C8store 1 "alice" "1h 20m").2.sessions =
        replaceFirst (byIdUser 1 "alice")
          (fun t => { t with effective_override_seconds := some 4800 })
          C8store.sessions :=
  C8_adjust_contract.1 C8store 1 "alice" "1h 20m" C8session 4800
    (by decide) (by decide)

/-! ## C5: the duration grammar -/

theorem matchNumUnitAt_mant_nonneg {l : List Char} {num : Dec} {u : Char}
    {rest : List Char} (h : matchNumUnitAt l = some (num, u, rest)) :
    0 ≤ num.mant := by
  unfold matchNumUnitAt at h
  dsimp only at h
  split at h
  · exact absurd h (by simp)
  · split at h
    · split at h
      · simp only [Option.some.injEq, Prod.mk.injEq] at h
        obtain ⟨h1, -, -⟩ := h
        rw [← h1]
        simp only [tokenDec]
        positivity
      · exact absurd h (by simp)
    · exact absurd h (by simp)

theorem scanNumUnitAux_mant_nonneg :
    ∀ (fuel : Nat) (l : List Char) (t : Dec × Char),
      t ∈ scanNumUnitAux fuel l → 0 ≤ t.1.mant := by
  intro fuel
  induction fuel with
  | zero => intro l t ht; simp [scanNumUnitAux] at ht
  | succ n ih =>
      intro l t ht
      cases l with
      | nil => simp [scanNumUnitAux] at ht
      | cons c cs =>
          rw [scanNumUnitAux] at ht
          cases hm : matchNumUnitAt (c :: cs) with
          | none =>
              rw [hm] at ht
              exact ih cs t ht
          | some r =>
              obtain ⟨num, u, rest⟩ := r
              rw [hm] at ht
              rcases List.mem_cons.mp ht with rfl | ht'
              · exact matchNumUnitAt_mant_nonneg hm
              · exact ih rest t ht'

theorem unitContribution_nonneg {t : Dec × Char} (h : 0 ≤ t.1.mant) :
    0 ≤ unitContribution t := by
  unfold unitContribution Dec.truncMul
  have h10 : (0:Int) ≤ (10:Int) ^ t.1.scale := by positivity
  split
  · exact Int.tdiv_nonneg (by positivity) h10
  · split
    · exact Int.tdiv_nonneg (by positivity) h10
    · exact Int.tdiv_nonneg (by simpa using h) h10

theorem foldr_add_nonneg {l : List Int} (h : ∀ x ∈ l, 0 ≤ x) :
    0 ≤ l.foldr (· + ·) 0 := by
  induction l with
  | nil => simp
  | cons a as ih =>
      have ha := h a (List.mem_cons_self a as)
      have hs := ih (fun x hx => h x (List.mem_cons_of_mem a hx))
      simp only [List.foldr_cons]
      omega

theorem tryUnits_nonneg {l : List Char} {v : Int} (h : tryUnits l = some v) :
    0 ≤ v := by
  unfold tryUnits at h
  split at h
  · exact absurd h (by simp)
  · injection h with h
    rw [← h]
    apply foldr_add_nonneg
    intro x hx
    rw [List.mem_map] at hx
    obtain ⟨t, ht, rfl⟩ := hx
    exact unitContribution_nonneg (scanNumUnitAux_mant_nonneg _ _ t ht)

/-- C5, amended. `parse_duration` returns an integer of seconds by
trying, in order: `H:MM` with both sides integer-parseable (falling through
when they are not), then a sum of `h`/`m`/`s` tokens each truncated toward
zero — this form always yields a non-negative value — then the whole trimmed
string as fractional minutes; it fails exactly when none of the three forms
yields a value; the canonical examples hold.  (The `H:MM` and
fractional-minutes forms accept signed numbers, so the function can return
negative seconds — see the counterexample.) -/
theorem C5_parse_duration :
    (∀ s : String,
        parse_duration s = none ↔
          (tryHMM ((pyStrip s.data).map Char.toLower) = none ∧
           tryUnits ((pyStrip s.data).map Char.toLower) = none ∧
           tryPlainMinutes ((pyStrip s.data).map Char.toLower) = none)) ∧
    (∀ (s : String) (v : Int),
        tryHMM ((pyStrip s.data).map Char.toLower) = some v →
        parse_duration s = some v) ∧
    (∀ (s : String) (v : Int),
        tryHMM ((pyStrip s.data).map Char.toLower) = none →
        tryUnits ((pyStrip s.data).map Char.toLower) = some v →
        parse_duration s = some v) ∧
    (∀ (l : List Char) (v : Int), tryUnits l = some v → 0 ≤ v) ∧
    (parse_duration "1h 20m" = some 4800 ∧
     parse_duration "1:20" = some 4800 ∧
     parse_duration "80" = some 4800 ∧
     parse_duration "" = none ∧
     parse_duration "1.5:30m" = some 1800 ∧
     parse_duration "2.5" = some 150 ∧
     format_duration 4800 = "1h 20m") := by
  refine ⟨?_, ?_, ?_, ?_, ?_⟩
  · intro s
    unfold parse_duration
    cases h1 : tryHMM ((pyStrip s.data).map Char.toLower) <;>
      cases h2 : tryUnits ((pyStrip s.data).map Char.toLower) <;>
        simp [h1, h2]
  · intro s v h
    unfold parse_duration
    dsimp only
    rw [h]
  · intro s v h1 h2
    unfold parse_duration
    dsimp only
    rw [h1, h2]
  · intro l v h
    exact tryUnits_nonneg h
  · refine ⟨?_, ?_, ?_, ?_, ?_, ?_, ?_⟩ <;> decide

/-- C5, counterexample to the claim as stated. The fallback
fractional-minutes form accepts a sign, so `parse_duration` is not
non-negative. -/
theorem C5_counterexample :
    parse_duration "-80" = some (-4800) ∧ ((-4800 : Int) < 0) := by
  decide

theorem C5_parse_duration_witness :
    tryUnits "2h".data = some 7200 ∧ (0 : Int) ≤ 7200 :=
  ⟨by decide, C5_parse_duration.2.2.2.1 "2h".data 7200 (by decide)⟩

/-! ## C7: allocation upsert -/

theorem length_replaceFirst {p : α → Bool} {f : α → α} (l : List α) :
    (replaceFirst p f l).length = l.length := by
  induction l with
  | nil => rfl
  | cons a as ih =>
      cases ha : p a with
      | true => simp [replaceFirst, ha]
      | false => simp [replaceFirst, ha, ih]

theorem get_or_create_user_allocations (st : Store) (u : String) :
    (get_or_create_user st u).allocations = st.allocations := by
  unfold get_or_create_user; split <;> rfl

theorem get_or_create_subject_allocations (st : Store) (u n : String) :
    (get_or_create_subject st u n).2.allocations = st.allocations := by
  unfold get_or_create_subject
  cases st.subjects.find? (subjectFor u n) <;> rfl

/-- C7. `set_weekly_allocation` stores `minutes = hours × 60` truncated
toward zero, with upsert semantics: when a matching (user, subject, week)
allocation exists the number of matching rows and the table length are
unchanged (the row is overwritten, `updated_at` refreshed); otherwise
exactly one matching row is appended. -/
theorem C7_set_allocation_upsert :
    (∀ (st : Store) (u subj : String) (hours : Dec) (ws now : Int),
        (set_weekly_allocation st u subj hours ws now).1.minutes_allocated =
          hours.truncMul 60 ∧
        (set_weekly_allocation st u subj hours ws now).1.user_id = u ∧
        (set_weekly_allocation st u subj hours ws now).1.week_start_date = dateOf ws ∧
        (set_weekly_allocation st u subj hours ws now).1.updated_at = now) ∧
    (∀ (st : Store) (u subj : String) (hours : Dec) (ws now : Int) (a : WeeklyAllocation),
        st.allocations.find?
            (allocFor u ((get_or_create_subject (get_or_create_user st u) u subj).1).id
              (dateOf ws)) = some a →
        (set_weekly_allocation st u subj hours ws now).2.allocations.countP
            (allocFor u ((get_or_create_subject (get_or_create_user st u) u subj).1).id
              (dateOf ws)) =
          st.allocations.countP
            (allocFor u ((get_or_create_subject (get_or_create_user st u) u subj).1).id
              (dateOf ws)) ∧
        (set_weekly_allocation st u subj hours ws now).2.allocations.length =
          st.allocations.length) ∧
    (∀ (st : Store) (u subj : String) (hours : Dec) (ws now : Int),
        st.allocations.find?
            (allocFor u ((get_or_create_subject (get_or_create_user st u) u subj).1).id
              (dateOf ws)) = none →
        (set_weekly_allocation st u subj hours ws now).2.allocations.countP
            (allocFor u ((get_or_create_subject (get_or_create_user st u) u subj).1).id
              (dateOf ws)) = 1 ∧
        (set_weekly_allocation st u subj hours ws now).2.allocations.length =
          st.allocations.length + 1) := by
  refine ⟨?_, ?_, ?_⟩
  · intro st u subj hours ws now
    unfold set_weekly_allocation
    dsimp only
    cases hf : ((get_or_create_subject (get_or_create_user st u) u subj).2).allocations.find?
        (allocFor u ((get_or_create_subject (get_or_create_user st u) u subj).1).id
          (dateOf ws)) with
    | some a =>
        have hp := List.find?_some hf
        rw [allocFor] at hp
        simp only [Bool.and_eq_true, beq_iff_eq] at hp
        exact ⟨rfl, hp.1.1, hp.2, rfl⟩
    | none => exact ⟨rfl, rfl, rfl, rfl⟩
  · intro st u subj hours ws now a hf
    unfold set_weekly_allocation
    dsimp only
    rw [get_or_create_subject_allocations, get_or_create_user_allocations, hf]
    constructor
    · rw [countP_replaceFirst_eq]
      intro y _
      simp [allocFor]
    · exact length_replaceFirst st.allocations
  · intro st u subj hours ws now hf
    unfold set_weekly_allocation
    dsimp only
    rw [get_or_create_subject_allocations, get_or_create_user_allocations, hf]
    constructor
    · rw [List.countP_append]
      have h0 : st.allocations.countP
          (allocFor u ((get_or_create_subject (get_or_create_user st u) u subj).1).id
            (dateOf ws)) = 0 := by
        rw [List.countP_eq_zero]
        intro a ha
        exact List.find?_eq_none.mp hf a ha
      rw [h0]
      simp [allocFor, List.countP_cons]
    · simp

def C7dec5 : Dec := ⟨5, 0⟩

def C7dec3 : Dec := ⟨3, 0⟩

/-- The store after `SetAllocation(A, "Math", 5.0)` on the empty store. -/
def C7store1 : Store := (set_weekly_allocation Store.init "A" "Math" C7dec5 0 10).2

theorem C7_set_allocation_upsert_witness :
    (set_weekly_allocation C7store1 "A" "Math" C7dec3 0 20).1.minutes_allocated =
      C7dec3.truncMul 60 ∧
    C7dec3.truncMul 60 = 180 ∧
    (set_weekly_allocation C7store1 "A" "Math" C7dec3 0 20).2.allocations.length =
      C7store1.allocations.length ∧
    C7store1.allocations.length = 1 :=
  ⟨(C7_set_allocation_upsert.1 C7store1 "A" "Math" C7dec3 0 20).1,
   by decide,
   (C7_set_allocation_upsert.2.1 C7store1 "A" "Math" C7dec3 0 20
      ⟨1, "A", 1, 0, 300, 10⟩ (by decide)).2,
   by decide⟩

/-! ## C9: negative hours are rejected before any mutation -/

/-- C9. The `/alloc set` handler rejects negative hours before calling
`set_weekly_allocation`: the response carries no allocation and the store is
returned untouched — no user, subject or allocation row is created or
modified, and no negative minutes value is stored.  (The check lives in the
interaction router, ahead of the engine call.) -/
theorem C9_negative_hours_rejected :
    ∀ (st : Store) (u subj : String) (hours : Dec) (ws now : Int),
      hours.mant < 0 →
      handle_alloc_set st u subj hours ws now = (none, st) := by
  intro st u subj hours ws now h
  unfold handle_alloc_set
  rw [if_pos h]

theorem C9_negative_hours_rejected_witness :
    handle_alloc_set Store.init "A" "Math" ⟨-1, 0⟩ 0 0 = (none, Store.init) :=
  C9_negative_hours_rejected Store.init "A" "Math" ⟨-1, 0⟩ 0 0 (by decide)

/-! ## C4: weekly allocation aggregation -/

instance : IsTotal WeeklyAllocation minutesGE :=
  ⟨fun a b => (le_total b.minutes_allocated a.minutes_allocated).imp id id⟩

instance : IsTrans WeeklyAllocation minutesGE :=
  ⟨fun _ _ _ hab hbc => le_trans hbc hab⟩

/-- C4. `get_weekly_allocations` returns exactly the user's allocations
keyed to the given week, ordered by allocated minutes descending; each is
paired with `floor(totalSeconds / 60)` where `totalSeconds` sums the
per-session contribution over that subject's ENDED_CONFIRMED sessions whose
`started_at` lies in `[weekStart, weekStart + 7 days)` (attributing a
week-spanning session entirely to its start week); and for every confirmed
session carrying its own `ended_at` or override that contribution equals the
§4.2 effective time at every instant `now` — `now` is irrelevant. -/
theorem C4_weekly_allocations :
    (∀ (st : Store) (u : String) (ws : Int),
        List.Sorted minutesGE ((get_weekly_allocations st u ws).map Prod.fst)) ∧
    (∀ (st : Store) (u : String) (ws : Int),
        ((get_weekly_allocations st u ws).map Prod.fst).Perm
          (st.allocations.filter
            (fun a => a.user_id == u && a.week_start_date == dateOf ws))) ∧
    (∀ (st : Store) (u : String) (ws : Int) (pr : WeeklyAllocation × Int),
        pr ∈ get_weekly_allocations st u ws →
        pr.2 = Int.fdiv
          (((st.sessions.filter (sessionInWeek u pr.1.subject_id ws)).map
              contribSeconds).foldr (· + ·) 0) 60) ∧
    (∀ (s : Session) (now : Int),
        s.status = .ENDED_CONFIRMED →
        s.ended_at.isSome = true ∨ s.effective_override_seconds.isSome = true →
        contribSeconds s = calculate_effective_time s now) := by
  refine ⟨?_, ?_, ?_, ?_⟩
  · intro st u ws
    unfold get_weekly_allocations
    dsimp only
    rw [List.map_map]
    have : (Prod.fst ∘ fun a : WeeklyAllocation =>
        (a, Int.fdiv (((st.sessions.filter (sessionInWeek u a.subject_id ws)).map
          contribSeconds).foldr (· + ·) 0) 60)) = id := by
      funext a; rfl
    rw [this, List.map_id]
    exact List.sorted_insertionSort minutesGE _
  · intro st u ws
    unfold get_weekly_allocations
    dsimp only
    rw [List.map_map]
    have : (Prod.fst ∘ fun a : WeeklyAllocation =>
        (a, Int.fdiv (((st.sessions.filter (sessionInWeek u a.subject_id ws)).map
          contribSeconds).foldr (· + ·) 0) 60)) = id := by
      funext a; rfl
    rw [this, List.map_id]
    exact List.perm_insertionSort minutesGE _
  · intro st u ws pr hpr
    unfold get_weekly_allocations at hpr
    dsimp only at hpr
    rw [List.mem_map] at hpr
    obtain ⟨a, _, rfl⟩ := hpr
    rfl
  · intro s now hconf hsome
    unfold contribSeconds calculate_effective_time
    cases ho : s.effective_override_seconds with
    | some v => rfl
    | none =>
        cases he : s.ended_at with
        | some e => rw [hconf]
        | none =>
            rw [ho, he] at hsome
            simp at hsome

def C4session : Session :=
  { id := 1, subject_id := 1, user_id := "A", started_at := 50,
    ended_at := some 650, goal := none, note := none,
    status := .ENDED_CONFIRMED, total_paused_seconds := 60,
    pause_started_at := none, effective_override_seconds := none }

theorem C4_weekly_allocations_witness :
    contribSeconds C4session = calculate_effective_time C4session 99999 :=
  C4_weekly_allocations.2.2.2 C4session 99999 (by decide) (Or.inl (by decide))

end FlaeBot
